import Mathlib

/-!
Shallow embedding of the country-data cleaning and integration pipeline
(`clean_df.py`, `feature_engineering.py`).  Strings are Lean `String`s,
pandas float columns are modelled over `ℚ` with `Option ℚ` for NaN cells,
tables are association lists from the country-name key to a row payload.
-/

/-! ### Python string primitives used by the pipeline

Case mapping is modelled for ASCII plus the accented letters that occur in
the synonym table (`ô`, `é`, `ç`), which is the alphabet the pipeline's
fixed tables use.
-/

def pyToLower (c : Char) : Char :=
  if c = 'Ô' then 'ô' else if c = 'É' then 'é' else if c = 'Ç' then 'ç' else c.toLower

def pyToUpper (c : Char) : Char :=
  if c = 'ô' then 'Ô' else if c = 'é' then 'É' else if c = 'ç' then 'Ç' else c.toUpper

/-- A character is "cased" for Python `str.title` purposes. -/
def pyIsCased (c : Char) : Bool :=
  c.isAlpha || c ∈ ['ô', 'é', 'ç', 'Ô', 'É', 'Ç']

/-- `prefixMatch p l` : the characters `p` are an initial segment of `l`. -/
def prefixMatch : List Char → List Char → Bool
  | [], _ => true
  | _ :: _, [] => false
  | a :: p, b :: l => a == b && prefixMatch p l

/-- `substrMatch p l` : the characters `p` occur contiguously inside `l`
(Python `in` / un-anchored regex literal search). -/
def substrMatch (p : List Char) : List Char → Bool
  | [] => p.isEmpty
  | c :: rest => prefixMatch p (c :: rest) || substrMatch p rest

/-! ### `_drop_non_country_rows` (clean_df.py lines 77-111)

`_CONTINENT_KEYWORDS` is the tuple from the source, last element the
two-character Python string backslash-`d`.  The code passes every keyword
through `re.escape`, so each one — including `"\d"` — is matched as a
literal substring; the search is case-insensitive and an un-escaped
regex `\n` (literal newline) is prepended. -/

def CONTINENT_KEYWORDS : List String :=
  ["Africa", "America", "Asia", "Europe", "Income", "World", "Un)", "(Wb", "\\d"]

/-- The mask computed by `df["Country"].str.contains(pattern, case=False)`
where `pattern` is the newline alternative followed by the escaped keywords. -/
def matchesDropPattern (name : String) : Bool :=
  substrMatch ['\n'] (name.data.map pyToLower) ||
    CONTINENT_KEYWORDS.any
      (fun k => substrMatch (k.data.map pyToLower) (name.data.map pyToLower))

/-- `_drop_non_country_rows`, restricted to the `Country` column it reads. -/
def dropNonCountryRows (rows : List String) : List String :=
  rows.filter (fun r => !(matchesDropPattern r))

/-- C1: the claim says every row surviving `_drop_non_country_rows` has a
country name containing no decimal digit (besides no newline and no fixed
keyword).  Because the code `re.escape`s the `"\d"` keyword, the digit class
degenerates to a literal backslash-`d` match: the row `"Chad 123"` contains
digits yet survives the filter, while a name containing a literal `\d` is
dropped. -/
theorem claim1_digit_rows_survive_filter :
    dropNonCountryRows ["Chad 123"] = ["Chad 123"] ∧
    ("Chad 123".data.any Char.isDigit) = true ∧
    dropNonCountryRows ["x\\d y"] = [] := by
  refine ⟨by decide, by decide, by decide⟩

/-! ### `_normalise_country_series` (clean_df.py lines 59-92)

Per-element model of the Series pipeline: `.str.strip()`, remove a trailing
`\s*\(country\)$` (case-insensitive), remove a leading `^the\s+`
(case-insensitive), `.str.title()`, then `.replace(_SPECIAL_REPLACEMENTS)`
(exact full-string dictionary replacement). -/

def SPECIAL_REPLACEMENTS : List (String × String) :=
  [("Cape Verde", "Cabo Verde"),
   ("Czechia", "Czech Republic (Czechia)"),
   ("Swaziland", "Eswatini"),
   ("East Timor", "Timor-Leste"),
   ("Saint Vincent And The Grenadines", "St. Vincent & Grenadines"),
   ("Saint Vincent and The Grenadines", "St. Vincent & Grenadines"),
   ("United States Virgin Islands", "U.S. Virgin Islands"),
   ("Sao Tome and Principe", "Sao Tome & Principe"),
   ("Sao Tome And Principe", "Sao Tome & Principe"),
   ("Palestine", "State Of Palestine"),
   ("Cote D'Ivoire", "Côte d'Ivoire"),
   ("Reunion", "Réunion"),
   ("Democratic Republic Of Congo", "DR Congo"),
   ("Curacao", "Curaçao")]

/-- Python `str.strip()`. -/
def pyStrip (l : List Char) : List Char :=
  ((l.dropWhile Char.isWhitespace).reverse.dropWhile Char.isWhitespace).reverse

def dropTrailingWS (l : List Char) : List Char :=
  (l.reverse.dropWhile Char.isWhitespace).reverse

def endsWithChars (suf l : List Char) : Bool :=
  prefixMatch suf.reverse l.reverse

/-- `.str.replace(r"\s*\(country\)$", "", regex=True, flags=re.I)`:
if the string ends (case-insensitively) with `(country)`, remove that
suffix together with the maximal whitespace run before it. -/
def stripCountrySuffix (l : List Char) : List Char :=
  if endsWithChars ("(country)".data) (l.map pyToLower)
  then dropTrailingWS (l.take (l.length - 9))
  else l

/-- `.str.replace(r"^the\s+", "", regex=True, flags=re.I)`:
if the string starts (case-insensitively) with `the` followed by at least
one whitespace character, remove `the` and the whole whitespace run. -/
def stripLeadingThe (l : List Char) : List Char :=
  match l with
  | a :: b :: c :: d :: rest =>
    if pyToLower a == 't' && pyToLower b == 'h' && pyToLower c == 'e'
        && d.isWhitespace
    then rest.dropWhile Char.isWhitespace
    else l
  | _ => l

/-- Python `str.title()`: a cased character is uppercased when the previous
character is not cased, lowercased otherwise.  The Boolean argument records
whether the previous character was cased. -/
def pyTitleAux : Bool → List Char → List Char
  | _, [] => []
  | prev, c :: rest =>
    if pyIsCased c then
      (if prev then pyToLower c else pyToUpper c) :: pyTitleAux true rest
    else c :: pyTitleAux false rest

def pyTitle (l : List Char) : List Char := pyTitleAux false l

/-- The text transform of `_normalise_country_series` before the synonym
table: strip, drop a trailing `(country)` qualifier, drop a leading
`the `, title-case. -/
def coreCanon (s : String) : String :=
  String.mk (pyTitle (stripLeadingThe (stripCountrySuffix (pyStrip s.data))))

/-- `_normalise_country_series` on one element: the core transform followed
by the exact-match `_SPECIAL_REPLACEMENTS` substitution. -/
def canonicalize (s : String) : String :=
  ((SPECIAL_REPLACEMENTS.lookup (coreCanon s)).getD (coreCanon s))

/-- C4 counterexample: canonicalization is not idempotent.  The synonym
table maps `"Democratic Republic Of Congo"` to `"DR Congo"`, but a second
pass title-cases that output to `"Dr Congo"` (Python `title()` lowercases
the `R`), which the synonym table does not map back. -/
theorem claim4_canonicalize_not_idempotent :
    canonicalize "Democratic Republic Of Congo" = "DR Congo" ∧
    canonicalize (canonicalize "Democratic Republic Of Congo") = "Dr Congo" ∧
    canonicalize (canonicalize "Democratic Republic Of Congo") ≠
      canonicalize "Democratic Republic Of Congo" := by
  refine ⟨by decide, by decide, by decide⟩

/-- C4 (amended): canonicalization is idempotent on every input whose
canonical form is a fixed point of the core text transform and is not a key
of the synonym table.  (The counterexample above shows the unrestricted
statement fails for synonym outputs whose title-casing differs.) -/
theorem claim4_canonicalize_idempotent_on_fixed_points (s : String)
    (hcore : coreCanon (canonicalize s) = canonicalize s)
    (hlook : SPECIAL_REPLACEMENTS.lookup (canonicalize s) = none) :
    canonicalize (canonicalize s) = canonicalize s := by
  have h2 : canonicalize (canonicalize s) =
      (SPECIAL_REPLACEMENTS.lookup (coreCanon (canonicalize s))).getD
        (coreCanon (canonicalize s)) := rfl
  rw [h2, hcore, hlook]
  rfl

/-- C4 witness: `" the gambia "` canonicalizes to `"Gambia"`, which is
core-fixed and not a synonym key, so a second canonicalization pass leaves
it unchanged. -/
theorem claim4_witness :
    canonicalize " the gambia " = "Gambia" ∧
    canonicalize (canonicalize " the gambia ") = canonicalize " the gambia " := by
  exact ⟨by decide, claim4_canonicalize_idempotent_on_fixed_points " the gambia "
    (by decide) (by decide)⟩

/-! ### Numeric coercion (clean_df.py lines 172-179 and 230-237)

`clean_gdp` strips every character outside `[\d.\-]`, turns the empty
residual into `pd.NA`, then calls `.astype(float)` — which *raises* on a
non-empty residual that is not a valid Python float literal.
`clean_population` strips to digits only, so its residual always parses.
A raised exception is modelled as `Except.error ()`; a missing value as
`Except.ok none`. -/

def digitsVal (l : List Char) : ℕ :=
  l.foldl (fun acc c => 10 * acc + (c.toNat - 48)) 0

def splitOnDot : List Char → List (List Char)
  | [] => [[]]
  | c :: rest =>
    if c = '.' then [] :: splitOnDot rest
    else
      match splitOnDot rest with
      | p :: ps => (c :: p) :: ps
      | [] => [[c]]

/-- Python `float()` on an unsigned literal drawn from the residual
alphabet (digits and at most one dot, with at least one digit). -/
def parseUnsigned (l : List Char) : Option ℚ :=
  match splitOnDot l with
  | [a] => if a ≠ [] ∧ a.all Char.isDigit then some (digitsVal a) else none
  | [a, b] =>
    if a.all Char.isDigit ∧ b.all Char.isDigit ∧ (a ≠ [] ∨ b ≠ []) then
      some ((digitsVal a : ℚ) + (digitsVal b : ℚ) / ((10 : ℚ) ^ b.length))
    else none
  | _ => none

/-- Python `float()` on a residual over `{digits, '.', '-'}`: one optional
leading minus sign, then an unsigned literal. -/
def parsePyFloat (l : List Char) : Option ℚ :=
  match l with
  | c :: rest =>
    if c = '-' then (parseUnsigned rest).map (fun q => -q)
    else parseUnsigned (c :: rest)
  | [] => parseUnsigned []

/-- `.str.replace(r"[^\d.\-]", "", regex=True)`. -/
def gdpStrip (s : String) : List Char :=
  s.data.filter (fun c => c.isDigit || c == '.' || c == '-')

/-- The GDP coercion chain `strip → "" ↦ NA → astype(float)`. -/
def gdpCoerce (s : String) : Except Unit (Option ℚ) :=
  if gdpStrip s = [] then Except.ok none
  else
    match parsePyFloat (gdpStrip s) with
    | some v => Except.ok (some v)
    | none => Except.error ()

/-- `.str.replace(r"[^\d]", "", regex=True)`. -/
def popStrip (s : String) : List Char :=
  s.data.filter (fun c => c.isDigit)

/-- The Population coercion chain `strip → "" ↦ NaN → astype(float)`. -/
def popCoerce (s : String) : Except Unit (Option ℚ) :=
  if popStrip s = [] then Except.ok none
  else
    match parsePyFloat (popStrip s) with
    | some v => Except.ok (some v)
    | none => Except.error ()

/-- C2 counterexample: the GDP coercion is not total.  On the input cell
`"1.2.3"` the strip keeps everything, and `astype(float)` raises on the
two-dot residual instead of producing a missing value. -/
theorem claim2_gdp_coercion_raises :
    gdpCoerce "1.2.3" = Except.error () := rfl

lemma splitOnDot_no_dot (l : List Char) (h : ∀ c ∈ l, c ≠ '.') :
    splitOnDot l = [l] := by
  induction l with
  | nil => rfl
  | cons c rest ih =>
    have hc : c ≠ '.' := h c (List.mem_cons_self c rest)
    have hrest : splitOnDot rest = [rest] :=
      ih (fun x hx => h x (List.mem_cons_of_mem c hx))
    simp [splitOnDot, hc, hrest]

/-- C2 (amended): the Population coercion is total (digits-only residuals
always parse), and the GDP coercion yields a missing value exactly on an
empty residual and a float on a parseable residual — but, per the
counterexample, it raises on unparseable non-empty residuals. -/
theorem claim2_coercion_amended :
    (∀ s : String, (popCoerce s).isOk = true) ∧
    (∀ s : String, gdpStrip s = [] → gdpCoerce s = Except.ok none) ∧
    (∀ (s : String) (v : ℚ), parsePyFloat (gdpStrip s) = some v →
      gdpCoerce s = Except.ok (some v)) := by
  refine ⟨?_, ?_, ?_⟩
  · intro s
    by_cases h : popStrip s = []
    · unfold popCoerce
      simp [h, Except.isOk, Except.toBool]
    · have hd : ∀ c ∈ popStrip s, c.isDigit := by
        intro c hc
        exact List.of_mem_filter hc
      have hnd : ∀ c ∈ popStrip s, c ≠ '.' := by
        intro c hc heq
        have := hd c hc
        rw [heq] at this
        exact absurd this (by decide)
      have hsplit : splitOnDot (popStrip s) = [popStrip s] :=
        splitOnDot_no_dot _ hnd
      have hall : (popStrip s).all Char.isDigit = true := by
        rw [List.all_eq_true]
        intro c hc
        exact hd c hc
      have hu : parseUnsigned (popStrip s) = some (digitsVal (popStrip s)) := by
        unfold parseUnsigned
        rw [hsplit]
        simp [h, hall]
      have hp : parsePyFloat (popStrip s) = some (digitsVal (popStrip s)) := by
        cases hps : popStrip s with
        | nil => exact absurd hps h
        | cons c rest =>
          have hcd : c.isDigit := hd c (by rw [hps]; exact List.mem_cons_self c rest)
          have hcm : c ≠ '-' := by
            intro he
            rw [he] at hcd
            exact absurd hcd (by decide)
          rw [hps] at hu
          simp [parsePyFloat, hcm, hu]
      unfold popCoerce
      simp [h, hp, Except.isOk, Except.toBool]
  · intro s h
    unfold gdpCoerce
    simp [h]
  · intro s v h
    unfold gdpCoerce
    by_cases he : gdpStrip s = []
    · rw [he] at h
      simp [parsePyFloat, parseUnsigned, splitOnDot] at h
    · simp [he, h]

/-- C2 witness for the amended statement at concrete cells: a digits-only
population cell parses, a letters-only GDP cell becomes missing, and a
currency-formatted GDP cell parses to its numeric value. -/
theorem claim2_witness :
    (popCoerce "1,234").isOk = true ∧
    gdpCoerce "abc" = Except.ok none ∧
    gdpCoerce "$1,234" = Except.ok (some 1234) := by
  refine ⟨claim2_coercion_amended.1 "1,234",
    claim2_coercion_amended.2.1 "abc" rfl,
    claim2_coercion_amended.2.2 "$1,234" 1234 ?_⟩
  show parsePyFloat ['1', '2', '3', '4'] = some 1234
  decide

/-! ### Missing-value drop reports (clean_df.py lines 181-187 and 239-246)

`clean_gdp`: `missing = df[GDP_COL].isna(); if missing.any(): … to_csv(...)`.
`clean_population`: `dropped = int(missing_mask.sum()); if dropped: … to_csv`.
A row is a key paired with the coerced primary value (`none` = NaN); the
result is the kept table together with `some report` when the report file
is written and `none` when it is not. -/

def gdpMissingStep (rows : List (String × Option ℚ)) :
    List (String × Option ℚ) × Option (List (String × Option ℚ)) :=
  (rows.filter (fun r => !r.2.isNone),
   if rows.any (fun r => r.2.isNone) then some (rows.filter (fun r => r.2.isNone))
   else none)

def popMissingStep (rows : List (String × Option ℚ)) :
    List (String × Option ℚ) × Option (List (String × Option ℚ)) :=
  (rows.filter (fun r => !r.2.isNone),
   if 0 < (rows.filter (fun r => r.2.isNone)).length then
     some (rows.filter (fun r => r.2.isNone))
   else none)

/-- C5 counterexample: with no missing primary value, neither cleaning pass
writes its dropped-rows report — the claim that an empty report with headers
is still produced is false; the writes sit under `if missing.any():` and
`if dropped:` guards. -/
theorem claim5_no_report_when_no_missing :
    (gdpMissingStep [("Albania", some 5)]).2 = none ∧
    (popMissingStep [("Albania", some 5)]).2 = none := ⟨rfl, rfl⟩

/-- C5 (amended): for both the GDP and the Population pass, the dropped-rows
report is written if and only if at least one row has a missing primary
value, in which case it holds exactly the missing rows; the kept table is
exactly the non-missing rows. -/
theorem claim5_report_written_iff_missing (rows : List (String × Option ℚ)) :
    ((gdpMissingStep rows).2.isSome ↔ ∃ r ∈ rows, r.2 = none) ∧
    ((popMissingStep rows).2.isSome ↔ ∃ r ∈ rows, r.2 = none) ∧
    ((gdpMissingStep rows).2 ≠ none →
      (gdpMissingStep rows).2 = some (rows.filter (fun r => r.2.isNone))) ∧
    (gdpMissingStep rows).1 = rows.filter (fun r => r.2.isSome) ∧
    (popMissingStep rows).1 = rows.filter (fun r => r.2.isSome) := by
  have hkept : rows.filter (fun r => !r.2.isNone) =
      rows.filter (fun r => r.2.isSome) := by
    apply List.filter_congr
    intro r _
    cases r.2 <;> simp
  have hex : (rows.any (fun r => r.2.isNone) = true) ↔ ∃ r ∈ rows, r.2 = none := by
    rw [List.any_eq_true]
    constructor
    · rintro ⟨r, hr, h2⟩
      exact ⟨r, hr, Option.isNone_iff_eq_none.mp h2⟩
    · rintro ⟨r, hr, h2⟩
      exact ⟨r, hr, by rw [h2]; rfl⟩
  refine ⟨?_, ?_, ?_, hkept, hkept⟩
  · unfold gdpMissingStep
    by_cases h : rows.any (fun r => r.2.isNone)
    · simpa [h] using hex.mp h
    · simp only [h]
      simp only [Bool.false_eq_true, if_false, Option.isSome_none,
        Bool.false_eq_true, false_iff]
      intro hc
      exact h (hex.mpr hc)
  · unfold popMissingStep
    by_cases h : rows.any (fun r => r.2.isNone)
    · have hlen : 0 < (rows.filter (fun r => r.2.isNone)).length := by
        rcases List.any_eq_true.mp h with ⟨r, hr, h2⟩
        have : r ∈ rows.filter (fun r => r.2.isNone) := List.mem_filter.mpr ⟨hr, h2⟩
        exact List.length_pos.mpr (List.ne_nil_of_mem this)
      simpa [hlen] using hex.mp h
    · have hlen : ¬ 0 < (rows.filter (fun r => r.2.isNone)).length := by
        intro hc
        rcases List.exists_mem_of_length_pos hc with ⟨r, hr⟩
        rcases List.mem_filter.mp hr with ⟨hrm, h2⟩
        exact h (List.any_eq_true.mpr ⟨r, hrm, h2⟩)
      simp only [hlen, if_false, Option.isSome_none, Bool.false_eq_true, false_iff]
      intro hc
      exact h (hex.mpr hc)
  · unfold gdpMissingStep
    by_cases h : rows.any (fun r => r.2.isNone)
    · simp [h]
    · simp [h]

/-- C5 witness: with one missing row, the report is written and holds
exactly the missing rows. -/
theorem claim5_witness :
    (gdpMissingStep [("Eritrea", (none : Option ℚ))]).2 =
      some ([("Eritrea", (none : Option ℚ))].filter (fun r => r.2.isNone)) := by
  exact (claim5_report_written_iff_missing [("Eritrea", none)]).2.2.1 (by decide)

/-! ### Duplicate resolution and NameMap substitution
(clean_df.py lines 196-204 and 256-263)

`df.drop_duplicates("Country", keep="first")` keeps the first row of each
duplicate-key group; afterwards `df["Country"].replace(name_map)` rewrites
each key that occurs as a dictionary key.  `dropDupFirstAux` carries the
set of keys already seen. -/

def dropDupFirstAux {α : Type} (seen : List String) :
    List (String × α) → List (String × α)
  | [] => []
  | r :: rest =>
    if r.1 ∈ seen then dropDupFirstAux seen rest
    else r :: dropDupFirstAux (r.1 :: seen) rest

/-- `drop_duplicates(subset=key, keep="first")`. -/
def dropDupFirst {α : Type} (rows : List (String × α)) : List (String × α) :=
  dropDupFirstAux [] rows

def tableKeys {α : Type} (rows : List (String × α)) : List String :=
  rows.map Prod.fst

/-- `df["Country"].replace(name_map)`: exact-match dictionary substitution
on the key column. -/
def applyNameMap {α : Type} (m : List (String × String))
    (rows : List (String × α)) : List (String × α) :=
  rows.map (fun r => ((m.lookup r.1).getD r.1, r.2))

lemma dropDupFirstAux_keys (α : Type) (l : List (String × α)) :
    ∀ seen : List String,
      (tableKeys (dropDupFirstAux seen l)).Nodup ∧
      ∀ k ∈ tableKeys (dropDupFirstAux seen l), k ∉ seen := by
  induction l with
  | nil =>
    intro seen
    exact ⟨List.nodup_nil, by intro k hk; exact absurd hk (List.not_mem_nil k)⟩
  | cons r rest ih =>
    intro seen
    by_cases h : r.1 ∈ seen
    · simpa [dropDupFirstAux, h] using ih seen
    · have ih2 := ih (r.1 :: seen)
      constructor
      · rw [show dropDupFirstAux seen (r :: rest) =
            r :: dropDupFirstAux (r.1 :: seen) rest by simp [dropDupFirstAux, h]]
        rw [tableKeys, List.map_cons]
        refine List.nodup_cons.mpr ⟨?_, ih2.1⟩
        intro hc
        exact (ih2.2 r.1 hc) (List.mem_cons_self r.1 seen)
      · intro k hk
        rw [show dropDupFirstAux seen (r :: rest) =
            r :: dropDupFirstAux (r.1 :: seen) rest by simp [dropDupFirstAux, h]] at hk
        rw [tableKeys, List.map_cons] at hk
        rcases List.mem_cons.mp hk with hk1 | hk2
        · rw [hk1]; exact h
        · intro hc
          exact (ih2.2 k hk2) (List.mem_cons_of_mem r.1 hc)

lemma dropDupFirst_keys_nodup {α : Type} (rows : List (String × α)) :
    (tableKeys (dropDupFirst rows)).Nodup :=
  (dropDupFirstAux_keys α rows []).1

lemma dropDupFirstAux_not_mem_of_seen {α : Type} (l : List (String × α)) :
    ∀ (seen : List String) (k : String) (v : α), k ∈ seen →
      (k, v) ∉ dropDupFirstAux seen l := by
  induction l with
  | nil => intro seen k v _ hc; exact absurd hc (List.not_mem_nil _)
  | cons r rest ih =>
    intro seen k v hk hc
    by_cases h : r.1 ∈ seen
    · rw [show dropDupFirstAux seen (r :: rest) = dropDupFirstAux seen rest by
        simp [dropDupFirstAux, h]] at hc
      exact ih seen k v hk hc
    · rw [show dropDupFirstAux seen (r :: rest) =
          r :: dropDupFirstAux (r.1 :: seen) rest by simp [dropDupFirstAux, h]] at hc
      rcases List.mem_cons.mp hc with hc1 | hc2
      · have : k = r.1 := congrArg Prod.fst hc1
        rw [this] at hk
        exact h hk
      · exact ih (r.1 :: seen) k v (List.mem_cons_of_mem r.1 hk) hc2

lemma dropDupFirstAux_mem_iff_lookup {α : Type} (l : List (String × α)) :
    ∀ (seen : List String) (k : String) (v : α), k ∉ seen →
      ((k, v) ∈ dropDupFirstAux seen l ↔ l.lookup k = some v) := by
  induction l with
  | nil =>
    intro seen k v _
    simp [dropDupFirstAux]
  | cons r rest ih =>
    intro seen k v hk
    by_cases h : r.1 ∈ seen
    · have hne : k ≠ r.1 := fun he => hk (he ▸ h)
      rw [show dropDupFirstAux seen (r :: rest) = dropDupFirstAux seen rest by
        simp [dropDupFirstAux, h]]
      rw [ih seen k v hk]
      cases r with
      | mk rk rv =>
        have hb : (k == rk) = false := beq_eq_false_iff_ne.mpr hne
        simp only [List.lookup, hb]
    · rw [show dropDupFirstAux seen (r :: rest) =
          r :: dropDupFirstAux (r.1 :: seen) rest by simp [dropDupFirstAux, h]]
      by_cases hkr : k = r.1
      · constructor
        · intro hm
          rcases List.mem_cons.mp hm with hm1 | hm2
          · cases r with
            | mk rk rv =>
              have hv : v = rv := congrArg Prod.snd hm1
              have hb : (k == rk) = true := beq_iff_eq.mpr hkr
              simp only [List.lookup, hb, hv]
          · exact absurd hm2 (dropDupFirstAux_not_mem_of_seen rest (r.1 :: seen) k v
              (hkr ▸ List.mem_cons_self r.1 seen))
        · intro hl
          cases r with
          | mk rk rv =>
            have hb : (k == rk) = true := beq_iff_eq.mpr hkr
            simp only [List.lookup, hb] at hl
            have hv : v = rv := by
              injection hl with hv
              exact hv.symm
            rw [hkr, hv]
            exact List.mem_cons_self _ _
      · have hks : k ∉ r.1 :: seen := by
          intro hc
          rcases List.mem_cons.mp hc with hc1 | hc2
          · exact hkr hc1
          · exact hk hc2
        rw [show ((r :: rest).lookup k) = rest.lookup k by
          cases r with
          | mk rk rv =>
            have hb : (k == rk) = false := beq_eq_false_iff_ne.mpr hkr
            simp only [List.lookup, hb]]
        rw [← ih (r.1 :: seen) k v hks]
        constructor
        · intro hm
          rcases List.mem_cons.mp hm with hm1 | hm2
          · exact absurd (congrArg Prod.fst hm1) hkr
          · exact hm2
        · intro hm
          exact List.mem_cons_of_mem r hm

/-- C3 counterexample: in `clean_gdp`/`clean_population` the NameMap
substitution runs *after* `drop_duplicates`, so a map sending one
deduplicated key onto another existing key produces a table whose index has
duplicate country keys. -/
theorem claim3_substitution_breaks_uniqueness :
    tableKeys (applyNameMap [("Zaire", "DR Congo")]
      (dropDupFirst [("Zaire", (1 : ℕ)), ("DR Congo", 2)])) =
      ["DR Congo", "DR Congo"] ∧
    ¬ (tableKeys (applyNameMap [("Zaire", "DR Congo")]
      (dropDupFirst [("Zaire", (1 : ℕ)), ("DR Congo", 2)]))).Nodup := by
  refine ⟨by decide, by decide⟩

/-- C3 (amended): after `drop_duplicates(keep="first")` a cleaned table's
country keys are unique, and they remain unique after the NameMap
substitution *provided* the substitution is injective on the deduplicated
keys; without that proviso uniqueness can fail (see the counterexample). -/
theorem claim3_unique_keys_amended {α : Type} (rows : List (String × α))
    (m : List (String × String))
    (hinj : ∀ k1 ∈ tableKeys (dropDupFirst rows),
      ∀ k2 ∈ tableKeys (dropDupFirst rows),
        (m.lookup k1).getD k1 = (m.lookup k2).getD k2 → k1 = k2) :
    (tableKeys (dropDupFirst rows)).Nodup ∧
    (tableKeys (applyNameMap m (dropDupFirst rows))).Nodup := by
  have hnd := dropDupFirst_keys_nodup rows
  refine ⟨hnd, ?_⟩
  have hkeys : tableKeys (applyNameMap m (dropDupFirst rows)) =
      (tableKeys (dropDupFirst rows)).map (fun k => (m.lookup k).getD k) := by
    simp [tableKeys, applyNameMap, List.map_map]
  rw [hkeys]
  exact List.Nodup.map_on hinj hnd

/-- C3 witness: a two-country table with a rename that stays injective on
its keys keeps a duplicate-free index after the substitution. -/
theorem claim3_witness :
    (tableKeys (dropDupFirst
      [("Albania", (1 : ℕ)), ("Albania", 2), ("Benin", 3)])).Nodup ∧
    (tableKeys (applyNameMap [("Albania", "Shqiperia")] (dropDupFirst
      [("Albania", (1 : ℕ)), ("Albania", 2), ("Benin", 3)]))).Nodup := by
  exact claim3_unique_keys_amended
    [("Albania", (1 : ℕ)), ("Albania", 2), ("Benin", 3)]
    [("Albania", "Shqiperia")] (by decide)

/-- C6: the claim describes a "mean" duplicate-resolution policy, but the
code at the cited site resolves duplicates with
`drop_duplicates("Country", keep="first")`: the `[10, 20, 30]` group keeps
its first value `10`, not the arithmetic mean `20`.  No aggregate-mean path
exists in the repository. -/
theorem claim6_duplicates_keep_first_not_mean :
    dropDupFirst [("Angola", (10 : ℕ)), ("Angola", 20), ("Angola", 30)] =
      [("Angola", 10)] ∧ (10 : ℕ) ≠ 20 := by
  refine ⟨by decide, by decide⟩

/-- C6 (amended): duplicate resolution keeps, for every key, exactly the
value of the key's first row — `(k, v)` survives iff `v` is the first value
listed for `k` — with no duplicate keys in the output; the `[10, 20, 30]`
group therefore resolves to `10`. -/
theorem claim6_keep_first_amended {α : Type} (rows : List (String × α)) :
    (∀ (k : String) (v : α), (k, v) ∈ dropDupFirst rows ↔ rows.lookup k = some v) ∧
    (tableKeys (dropDupFirst rows)).Nodup ∧
    (dropDupFirst [("Angola", (10 : ℚ)), ("Angola", 20), ("Angola", 30)]).map
      Prod.snd = [10] := by
  refine ⟨?_, dropDupFirst_keys_nodup rows, by decide⟩
  intro k v
  exact dropDupFirstAux_mem_iff_lookup rows [] k v (List.not_mem_nil k)

/-! ### Integrator (feature_engineering.py lines 64-85)

`df_demo.join(df_gdp, how="inner").join(df_pop, how="inner")`, then
`lost = sorted((demo ∪ gdp ∪ pop) − joined)`.  An inner index join keeps a
left row exactly when its key also appears on the right. -/

def innerJoin {α β : Type} (t1 : List (String × α)) (t2 : List (String × β)) :
    List (String × (α × β)) :=
  t1.filterMap (fun r => (t2.lookup r.1).map (fun b => (r.1, (r.2, b))))

def integrate {α β γ : Type} (demo : List (String × α)) (gdp : List (String × β))
    (pop : List (String × γ)) : List (String × ((α × β) × γ)) :=
  innerJoin (innerJoin demo gdp) pop

/-- `sorted(universe - joined)` where `universe` is the set union of the
three key sets: distinct keys, filtered against the joined index, in
ascending order. -/
def lostCountries {α β γ : Type} (demo : List (String × α))
    (gdp : List (String × β)) (pop : List (String × γ)) : List String :=
  List.insertionSort (fun a b => a ≤ b)
    (((tableKeys demo ++ tableKeys gdp ++ tableKeys pop).dedup).filter
      (fun k => decide (k ∉ tableKeys (integrate demo gdp pop))))

lemma lookup_isSome_iff_mem_keys {β : Type} (t : List (String × β)) (k : String) :
    (t.lookup k).isSome = true ↔ k ∈ tableKeys t := by
  induction t with
  | nil => simp [tableKeys]
  | cons r rest ih =>
    cases r with
    | mk a b =>
      by_cases h : k = a
      · have hb : (k == a) = true := beq_iff_eq.mpr h
        simp [List.lookup, hb, tableKeys, h]
      · have hb : (k == a) = false := beq_eq_false_iff_ne.mpr h
        simp only [List.lookup, hb, tableKeys, List.map_cons, List.mem_cons]
        rw [tableKeys] at ih
        simp [ih, h]

lemma mem_keys_innerJoin {α β : Type} (t1 : List (String × α))
    (t2 : List (String × β)) (k : String) :
    k ∈ tableKeys (innerJoin t1 t2) ↔ k ∈ tableKeys t1 ∧ k ∈ tableKeys t2 := by
  constructor
  · intro h
    rcases List.mem_map.mp h with ⟨p, hp, hpk⟩
    rcases List.mem_filterMap.mp hp with ⟨r, hr, hf⟩
    rcases Option.map_eq_some'.mp hf with ⟨b, hb, hpe⟩
    have hk : r.1 = k := by rw [← hpe] at hpk; exact hpk
    constructor
    · rw [← hk]
      exact List.mem_map.mpr ⟨r, hr, rfl⟩
    · rw [← hk, ← lookup_isSome_iff_mem_keys]
      rw [hb]
      rfl
  · rintro ⟨h1, h2⟩
    rcases List.mem_map.mp h1 with ⟨r, hr, hrk⟩
    rcases Option.isSome_iff_exists.mp
      ((lookup_isSome_iff_mem_keys t2 k).mpr h2) with ⟨b, hb⟩
    refine List.mem_map.mpr ⟨(k, (r.2, b)), ?_, rfl⟩
    refine List.mem_filterMap.mpr ⟨r, hr, ?_⟩
    rw [hrk, hb]
    rfl

lemma mem_keys_integrate {α β γ : Type} (demo : List (String × α))
    (gdp : List (String × β)) (pop : List (String × γ)) (k : String) :
    k ∈ tableKeys (integrate demo gdp pop) ↔
      k ∈ tableKeys demo ∧ k ∈ tableKeys gdp ∧ k ∈ tableKeys pop := by
  unfold integrate
  rw [mem_keys_innerJoin, mem_keys_innerJoin, and_assoc]

/-- C7: the integrator inner-joins on the canonical key — a key survives
iff it occurs in all three cleaned tables — and the lost-countries list
holds exactly the keys in the three-way union but not the join, in
ascending order; on the key sets `{A,B,C}`, `{A,B}`, `{A,B,C}` the joined
keys are `[A, B]` and the lost list is `[C]`. -/
theorem claim7_integrator_join_and_lost {α β γ : Type}
    (demo : List (String × α)) (gdp : List (String × β))
    (pop : List (String × γ)) :
    (∀ k, k ∈ tableKeys (integrate demo gdp pop) ↔
      k ∈ tableKeys demo ∧ k ∈ tableKeys gdp ∧ k ∈ tableKeys pop) ∧
    (∀ k, k ∈ lostCountries demo gdp pop ↔
      ((k ∈ tableKeys demo ∨ k ∈ tableKeys gdp ∨ k ∈ tableKeys pop) ∧
        ¬(k ∈ tableKeys demo ∧ k ∈ tableKeys gdp ∧ k ∈ tableKeys pop))) ∧
    (lostCountries demo gdp pop).Sorted (fun a b => a ≤ b) ∧
    tableKeys (integrate [("A", (0 : ℕ)), ("B", 0), ("C", 0)]
      [("A", (0 : ℕ)), ("B", 0)] [("A", (0 : ℕ)), ("B", 0), ("C", 0)]) =
      ["A", "B"] ∧
    lostCountries [("A", (0 : ℕ)), ("B", 0), ("C", 0)] [("A", (0 : ℕ)), ("B", 0)]
      [("A", (0 : ℕ)), ("B", 0), ("C", 0)] = ["C"] := by
  refine ⟨mem_keys_integrate demo gdp pop, ?_, ?_, by decide, by decide⟩
  · intro k
    unfold lostCountries
    rw [(List.perm_insertionSort (fun a b => a ≤ b) _).mem_iff]
    rw [List.mem_filter, List.mem_dedup, List.mem_append, List.mem_append]
    rw [decide_eq_true_iff, mem_keys_integrate]
    tauto
  · exact List.sorted_insertionSort (fun a b => a ≤ b) _

/-! ### Zero-as-missing imputation (feature_engineering.py lines 87-109)

A numeric column is a list of cells, `none` being NaN.  pandas `mean()`
skips NaN and is itself NaN on an all-NaN selection; `fillna(NaN)` leaves
NaN in place — both fall out of the `Option` plumbing below. -/

def mean (l : List ℚ) : ℚ := l.sum / l.length

/-- pandas `Series.mean()`: NaN-skipping mean, NaN when no values remain. -/
def meanOpt (cells : List (Option ℚ)) : Option ℚ :=
  if cells.filterMap id = [] then none else some (mean (cells.filterMap id))

/-- One column of the zero-replacement loop:
`nonzeros = df.loc[df[col] != 0, col]; if not nonzeros.empty:
 df.loc[df[col] == 0, col] = nonzeros.mean()`.  NaN cells compare `!= 0`
as True in pandas, so they belong to `nonzeros`. -/
def zeroStep (cells : List (Option ℚ)) : List (Option ℚ) :=
  if cells.filter (fun c => decide (c ≠ some 0)) = [] then cells
  else cells.map (fun c =>
    if c = some 0 then meanOpt (cells.filter (fun c => decide (c ≠ some 0)))
    else c)

/-- One column of the NaN-fill loop: `fillna(df[col].mean())`. -/
def nanStep (cells : List (Option ℚ)) : List (Option ℚ) :=
  cells.map (fun c =>
    match c with
    | none => meanOpt cells
    | some v => some v)

def imputeColumn (cells : List (Option ℚ)) : List (Option ℚ) :=
  nanStep (zeroStep cells)

/-- The two imputation loops of `integrate_and_save`, columnwise over the
joined table: the zero-replacement loop runs only under the global
`zero_mask.any()` guard, the NaN fill runs on every column. -/
def imputeTable (cols : List (List (Option ℚ))) : List (List (Option ℚ)) :=
  (if cols.any (fun col => decide (some 0 ∈ col))
   then cols.map zeroStep else cols).map nanStep

/-- The column's actual non-zero values (what `nonzeros.mean()` averages:
NaN entries of `nonzeros` are skipped by pandas `mean`). -/
def nzVals (cells : List (Option ℚ)) : List ℚ :=
  (cells.filterMap id).filter (fun v => decide (v ≠ 0))

lemma filterMap_filter_ne_zero (cells : List (Option ℚ)) :
    (cells.filter (fun c => decide (c ≠ some 0))).filterMap id = nzVals cells := by
  unfold nzVals
  induction cells with
  | nil => rfl
  | cons c rest ih =>
    cases c with
    | none => simpa using ih
    | some v =>
      by_cases hv : v = 0
      · simpa [hv] using ih
      · simpa [hv] using ih

lemma zeroStep_of_no_zero (cells : List (Option ℚ)) (h : some 0 ∉ cells) :
    zeroStep cells = cells := by
  unfold zeroStep
  by_cases he : cells.filter (fun c => decide (c ≠ some 0)) = []
  · rw [if_pos he]
  · rw [if_neg he]
    have : ∀ c ∈ cells,
        (if c = some 0
         then meanOpt (cells.filter (fun c => decide (c ≠ some 0)))
         else c) = c := by
      intro c hc
      rw [if_neg]
      intro he2
      rw [he2] at hc
      exact h hc
    rw [List.map_congr_left this]
    simp

lemma zeroStep_mean (cells : List (Option ℚ)) (h : nzVals cells ≠ []) :
    zeroStep cells = cells.map
      (fun c => if c = some 0 then some (mean (nzVals cells)) else c) := by
  unfold zeroStep
  have hne : cells.filter (fun c => decide (c ≠ some 0)) ≠ [] := by
    intro he
    apply h
    rw [← filterMap_filter_ne_zero, he]
    rfl
  rw [if_neg hne]
  apply List.map_congr_left
  intro c _
  by_cases hc : c = some 0
  · rw [if_pos hc, if_pos hc]
    unfold meanOpt
    rw [filterMap_filter_ne_zero]
    rw [if_neg h]
  · rw [if_neg hc, if_neg hc]

/-- C8: imputation is columnwise (the table step equals the per-column step
mapped over the columns, zero tier before NaN tier, no cross-column value),
a zero cell becomes the arithmetic mean of the column's non-zero values
whenever such values exist, and the column `[0, 4, 6]` becomes
`[5, 4, 6]`. -/
theorem claim8_two_tier_imputation :
    (∀ cols : List (List (Option ℚ)), imputeTable cols = cols.map imputeColumn) ∧
    (∀ cells : List (Option ℚ), nzVals cells ≠ [] →
      zeroStep cells = cells.map
        (fun c => if c = some 0 then some (mean (nzVals cells)) else c)) ∧
    imputeColumn [some 0, some 4, some 6] = [some 5, some 4, some 6] := by
  refine ⟨?_, ?_, ?_⟩
  · intro cols
    unfold imputeTable
    by_cases hg : cols.any (fun col => decide (some 0 ∈ col)) = true
    · rw [if_pos hg, List.map_map]
      rfl
    · rw [if_neg hg]
      have hno : ∀ col ∈ cols, some 0 ∉ col := by
        intro col hcol hmem
        exact hg (List.any_eq_true.mpr ⟨col, hcol, decide_eq_true hmem⟩)
      apply List.map_congr_left
      intro col hcol
      unfold imputeColumn
      rw [zeroStep_of_no_zero col (hno col hcol)]
  · exact zeroStep_mean
  · have hnz : nzVals [some 0, some 4, some 6] = [4, 6] := by
      norm_num [nzVals, List.filterMap, List.filter]
    have hmean : mean (nzVals [some 0, some 4, some 6]) = 5 := by
      rw [hnz]
      norm_num [mean, List.sum_cons]
    have hz : zeroStep [some 0, some 4, some 6] = [some 5, some 4, some 6] := by
      rw [zeroStep_mean _ (by rw [hnz]; exact List.cons_ne_nil 4 [6]), hmean]
      norm_num
    unfold imputeColumn
    rw [hz]
    rfl

/-- C8 witness: on the column `[0, 4, 6]` the non-zero values exist and the
zero tier rewrites the zero cell to their mean. -/
theorem claim8_witness :
    nzVals [some 0, some 4, some 6] ≠ [] ∧
    zeroStep [some 0, some 4, some 6] = [some 0, some 4, some 6].map
      (fun c => if c = some 0
        then some (mean (nzVals [some 0, some 4, some 6])) else c) :=
  ⟨by decide, claim8_two_tier_imputation.2.1 _ (by decide)⟩

/-- C10: a column containing only zeros is left unchanged by imputation —
its non-zero selection is empty, so no substitute mean exists, no
replacement happens, and the NaN fill has nothing to fill. -/
theorem claim10_all_zero_column_unchanged (col : List (Option ℚ))
    (h : ∀ c ∈ col, c = some 0) : imputeColumn col = col := by
  have hz : zeroStep col = col := by
    unfold zeroStep
    rw [if_pos]
    rw [List.filter_eq_nil_iff]
    intro c hc
    simpa using h c hc
  unfold imputeColumn
  rw [hz]
  unfold nanStep
  have : ∀ c ∈ col,
      (match c with
       | none => meanOpt col
       | some v => some v) = c := by
    intro c hc
    rw [h c hc]
  rw [List.map_congr_left this]
  simp

/-- C10 witness: the all-zero column `[0, 0]` survives imputation verbatim. -/
theorem claim10_witness :
    imputeColumn [some 0, some 0] = [some 0, some 0] :=
  claim10_all_zero_column_unchanged [some 0, some 0] (by decide)

/-! ### z-scoring (feature_engineering.py lines 37-41 and 57-61)

`zscore(col) = (col - col.mean()) / col.std(ddof=0)` and `zscore_selected`
applies it to exactly the three columns below.  The population standard
deviation is the square root of `pvariance`; since the embedding works in
exact rationals, σ is passed explicitly together with the defining equation
`σ² = pvariance`. -/

def pvariance (l : List ℚ) : ℚ :=
  (l.map (fun x => (x - mean l) ^ 2)).sum / l.length

/-- `zscore` with the population standard deviation σ supplied. -/
def zscoreWith (l : List ℚ) (σ : ℚ) : List ℚ :=
  l.map (fun x => (x - mean l) / σ)

/-- The column list of `zscore_selected`. -/
def zscoreSelectedCols : List String :=
  ["LifeExpectancy_Both", "LogGDPperCapita", "LogPopulation"]

lemma sum_map_sub_div (l : List ℚ) (μ s : ℚ) :
    (l.map (fun x => (x - μ) / s)).sum = (l.sum - l.length * μ) / s := by
  induction l with
  | nil => simp
  | cons a t ih =>
    rw [List.map_cons, List.sum_cons, ih, div_add_div_same, List.sum_cons,
      List.length_cons]
    congr 1
    push_cast
    ring

lemma sum_map_div (l : List ℚ) (f : ℚ → ℚ) (s : ℚ) :
    (l.map (fun x => f x / s)).sum = (l.map f).sum / s := by
  induction l with
  | nil => simp
  | cons a t ih =>
    rw [List.map_cons, List.sum_cons, ih, div_add_div_same, List.map_cons,
      List.sum_cons]

lemma mean_zscoreWith (l : List ℚ) (s : ℚ) (hl : l ≠ []) :
    mean (zscoreWith l s) = 0 := by
  have hn : (l.length : ℚ) ≠ 0 :=
    Nat.cast_ne_zero.mpr (List.length_pos.mpr hl).ne'
  unfold mean zscoreWith
  rw [List.length_map, sum_map_sub_div]
  rw [show (l.length : ℚ) * mean l = l.sum by rw [mean]; field_simp]
  simp

lemma pvariance_nil : pvariance [] = 0 := by
  simp [pvariance]

lemma pvariance_zscoreWith (l : List ℚ) (s : ℚ) (hs : s ≠ 0)
    (hv : s ^ 2 = pvariance l) (hl : l ≠ []) :
    pvariance (zscoreWith l s) = 1 := by
  have hn : (l.length : ℚ) ≠ 0 :=
    Nat.cast_ne_zero.mpr (List.length_pos.mpr hl).ne'
  have hm := mean_zscoreWith l s hl
  unfold pvariance
  rw [hm]
  have hlen : ((zscoreWith l s).length : ℚ) = (l.length : ℚ) := by
    rw [zscoreWith, List.length_map]
  rw [hlen]
  have hmap : (zscoreWith l s).map (fun y => (y - 0) ^ 2) =
      l.map (fun x => ((x - mean l) ^ 2) / s ^ 2) := by
    unfold zscoreWith
    rw [List.map_map]
    apply List.map_congr_left
    intro x _
    simp [div_pow]
  rw [hmap, sum_map_div]
  have hS : (l.map (fun x => (x - mean l) ^ 2)).sum = pvariance l * l.length := by
    rw [pvariance]
    field_simp
  rw [hS, ← hv]
  have hs2 : s ^ 2 ≠ 0 := pow_ne_zero 2 hs
  field_simp

/-- C9: `zscore_selected` standardizes exactly three columns, and `zscore`
— which divides by the population standard deviation σ (`std(ddof=0)`,
divide by N not N−1) — sends any column with σ ≠ 0 (hence non-constant)
to one with mean 0 and population variance 1 (equivalently, population
standard deviation 1); σ is characterized exactly by `σ² = pvariance`. -/
theorem claim9_zscore_population_std :
    zscoreSelectedCols.length = 3 ∧
    ∀ (l : List ℚ) (s : ℚ), s ≠ 0 → s ^ 2 = pvariance l →
      mean (zscoreWith l s) = 0 ∧ pvariance (zscoreWith l s) = 1 := by
  refine ⟨rfl, ?_⟩
  intro l s hs hv
  have hl : l ≠ [] := by
    intro he
    rw [he, pvariance_nil] at hv
    have h2 : s * s = 0 := by
      rw [← pow_two]
      exact hv
    exact hs (mul_self_eq_zero.mp h2)
  exact ⟨mean_zscoreWith l s hl, pvariance_zscoreWith l s hs hv hl⟩

/-- C9 witness: the column `[1, 3]` has population variance 1, so σ = 1,
and its z-scores `[-1, 1]` have mean 0 and population variance 1. -/
theorem claim9_witness :
    (1 : ℚ) ≠ 0 ∧ (1 : ℚ) ^ 2 = pvariance [1, 3] ∧
    mean (zscoreWith [1, 3] 1) = 0 ∧ pvariance (zscoreWith [1, 3] 1) = 1 := by
  have hvar : (1 : ℚ) ^ 2 = pvariance [1, 3] := by
    norm_num [pvariance, mean, List.sum_cons]
  exact ⟨one_ne_zero, hvar,
    (claim9_zscore_population_std.2 [1, 3] 1 one_ne_zero hvar).1,
    (claim9_zscore_population_std.2 [1, 3] 1 one_ne_zero hvar).2⟩
